import Mathlib

/-!
Verification development for the `osssync` repository (sources `nextseq.py`,
`pull.py`, `pull2.py`).  The Python code is shallowly embedded: a run
directory's on-disk state is a record (`FS`, `PullState`), blocking waits
become `Except`-valued guards that succeed exactly when the awaited path
exists in the (static) disk state, and the lazy generator
`Sequence.iter_data_files` becomes a function returning the full list of
yielded paths.  Machine integers are `Nat`; XML parsing is modelled by a
three-state `Descriptor` (missing file / malformed file / well-formed list of
`Read` elements each with an optional `NumCycles` attribute).
-/

/-! String constants for the fixed path names of `nextseq.py` / `pull.py`. -/

def slash : String := "/"

def usep : Char := '_'

def run_info_xml : String := "RunInfo.xml"

def run_parammeters_xml : String := "RunParameters.xml"

def rta_configuration_xml : String := "RTAConfiguration.xml"

def rta_complete_txt : String := "RTAComplete.txt"

def run_completion_status_xml : String := "RunCompletionStatus.xml"

def intensities_dir : String := "Data/Intensities"

def baseCallsName : String := "BaseCalls"

def recipe_dir : String := "Recipe"

def config_dir : String := "Config"

def interop_dir : String := "InterOp"

def images_dir : String := "Images"

def thumbnail_images_dir : String := "Thumbnail_Images"

def rtalogs_dir : String := "RTALogs"

def logs_dir : String := "Logs"

def laneDirStem : String := "L00"

def sStem : String := "s_"

def locsExt : String := ".locs"

def filterExt : String := ".filter"

def bciExt : String := ".bci"

def bclExt : String := ".bcl.bgzf"

/-- `Data/Intensities/BaseCalls` (`Sequence.basecall_dir`). -/
def basecall_dir : String := intensities_dir ++ slash ++ baseCallsName

/-! ## The run-descriptor XML (`RunInfo.xml`)

`cycle_count` / `find_read_length` parse `RunInfo.xml` and sum the
`NumCycles` attribute over every `Run/Reads/Read` element, a missing
attribute contributing 0 (`read.get('NumCycles', 0)`).  The descriptor is
modelled by its three observable states. -/

inductive Descriptor where
  | absent
  | malformed
  | wellFormed (reads : List (Option Nat))
deriving DecidableEq

/-- Sum of the `NumCycles` attributes over the `Run/Reads/Read` elements. -/
def sumNumCycles (reads : List (Option Nat)) : Nat :=
  (reads.map (fun r => r.getD 0)).sum

/-- `RunInfo.xml` exists on disk iff the descriptor state is not `absent`. -/
def Descriptor.existsOnDisk : Descriptor → Bool
  | .absent => false
  | .malformed => true
  | .wellFormed _ => true

/-- `Sequence.cycle_count` (nextseq.py lines 19-27): returns the sentinel
9999 when `RunInfo.xml` does not exist, raises a parse error
(`ElementTree.parse`) on a malformed file, and otherwise sums `NumCycles`
over the `Read` elements. -/
def cycle_count : Descriptor → Except Unit Nat
  | .absent => .ok 9999
  | .malformed => .error ()
  | .wellFormed reads => .ok (sumNumCycles reads)

/-- `find_read_length` (pull.py lines 169-174): same sum, but the file is
parsed unconditionally, so a missing file also raises
(`FileNotFoundError` from `ElementTree.parse`). -/
def find_read_length : Descriptor → Except Unit Nat
  | .absent => .error ()
  | .malformed => .error ()
  | .wellFormed reads => .ok (sumNumCycles reads)

/-! ## RunLayout: the path builders of `Sequence` (nextseq.py)

Paths are strings relative to `seq_dir`. -/

structure Sequence where
  lane_count : Nat
deriving DecidableEq

/-- `range(1, lane_count + 1)`. -/
def laneRange (s : Sequence) : List Nat := List.range' 1 s.lane_count

/-- `str(cycle).zfill(4)`. -/
def zfill4 (n : Nat) : String :=
  let s := toString n
  String.mk (List.replicate (4 - s.length) '0') ++ s

/-- `f'L00{lane}'`. -/
def laneDirName (lane : Nat) : String := laneDirStem ++ toString lane

/-- `Sequence.cycle_bcl_files(cycle, lane)`:
`basecall_dir / f'L00{lane}' / f'{str(cycle).zfill(4)}.bcl.bgzf'`. -/
def cycle_bcl_files (cycle lane : Nat) : String :=
  basecall_dir ++ slash ++ laneDirName lane ++ slash ++ zfill4 cycle ++ bclExt

/-- `Sequence.cycle_bcl_index_files(cycle, lane)`. -/
def cycle_bcl_index_files (cycle lane : Nat) : String :=
  basecall_dir ++ slash ++ laneDirName lane ++ slash ++ zfill4 cycle ++ bclExt ++ bciExt

/-- `Sequence.location_files`. -/
def location_files (s : Sequence) : List String :=
  (laneRange s).map (fun lane => intensities_dir ++ slash ++ laneDirName lane ++ slash ++ sStem ++ toString lane ++ locsExt)

/-- `Sequence.filter_files`. -/
def filter_files (s : Sequence) : List String :=
  (laneRange s).map (fun lane => basecall_dir ++ slash ++ laneDirName lane ++ slash ++ sStem ++ toString lane ++ filterExt)

/-- `Sequence.lane_bci_files`. -/
def lane_bci_files (s : Sequence) : List String :=
  (laneRange s).map (fun lane => basecall_dir ++ slash ++ laneDirName lane ++ slash ++ sStem ++ toString lane ++ bciExt)

/-- `Sequence.all_bcl_files` for a given cycle count (lane-major, as in the
source: outer loop over lanes, inner loop over `range(1, cycle_count + 1)`). -/
def all_bcl_files (s : Sequence) (cc : Nat) : List String :=
  (laneRange s).flatMap (fun lane => (List.range' 1 cc).map (fun c => cycle_bcl_files c lane))

/-- `Sequence.all_bcl_index_files` for a given cycle count. -/
def all_bcl_index_files (s : Sequence) (cc : Nat) : List String :=
  (laneRange s).flatMap (fun lane => (List.range' 1 cc).map (fun c => cycle_bcl_index_files c lane))

/-! ## Disk state of one run directory -/

/-- The on-disk state of a run directory: existence of ordinary paths, the
state of `RunInfo.xml` (whose existence is derived from the descriptor
state), and the result of the glob `RTARead*Complete.txt`. -/
structure FS where
  files : String → Bool
  runInfo : Descriptor
  readCompleteGlobs : List String

/-- `Path.exists()` against the modelled disk state. -/
def FS.pathExists (fs : FS) (p : String) : Bool :=
  if p = run_info_xml then fs.runInfo.existsOnDisk else fs.files p

/-- `Sequence.wait_file` (nextseq.py lines 98-103): blocks until the path
exists.  Against a static disk state this succeeds iff the path exists and
blocks forever (here: `.error ()`) otherwise; the extra settle sleep has no
observable effect in the model. -/
def wait_file (fs : FS) (p : String) : Except Unit Unit :=
  if fs.pathExists p then .ok () else .error ()

/-- `Sequence.wait_cycle` (nextseq.py lines 87-96): blocks until the lane-1
data file of `cycle` exists; the peek at the next cycle's file only decides
an extra sleep, never blocks. -/
def wait_cycle (fs : FS) (cycle : Nat) : Except Unit Unit :=
  wait_file fs (cycle_bcl_files cycle 1)

/-- Sequential composition of per-item effects, concatenating the yielded
paths; mirrors a `for` loop whose body waits and then yields. -/
def collectM (xs : List α) (f : α → Except Unit (List String)) : Except Unit (List String) :=
  match xs with
  | [] => .ok []
  | x :: rest => do
    let ys ← f x
    let zs ← collectM rest f
    .ok (ys ++ zs)

/-- One cycle's per-lane yields: `for lane in range(1, lane_count + 1):
yield cycle_bcl_files; yield cycle_bcl_index_files`. -/
def cyclePairs (s : Sequence) (cycle : Nat) : List String :=
  (laneRange s).flatMap (fun lane => [cycle_bcl_files cycle lane, cycle_bcl_index_files cycle lane])

/-- `Sequence.iter_data_files` (nextseq.py lines 43-85) against a static
disk state: the list of yielded paths, in yield order, or `.error ()` if
some wait would block forever (or `cycle_count` raises).  The `while
self.cycle_count >= this_cycle` loop re-reads the descriptor each
iteration; the disk state is immutable here, so the bound is read once and
the loop becomes the cycle list `6, 7, ..., cycle_count`
(`List.range' 6 (cc - 5)`). -/
def iter_data_files (fs : FS) (s : Sequence) : Except Unit (List String) := do
  wait_file fs run_info_xml
  wait_file fs run_parammeters_xml
  let laneBcis ← collectM (lane_bci_files s) (fun f => do
    wait_file fs f
    .ok [f])
  let first5 ← collectM (List.range' 1 5) (fun c => do
    wait_cycle fs c
    .ok (cyclePairs s c))
  wait_file fs (cycle_bcl_files 6 1)
  let cc ← cycle_count fs.runInfo
  let mid ← collectM (List.range' 6 (cc - 5)) (fun c => do
    wait_cycle fs c
    if c == 25 then do
      let filts ← collectM (filter_files s) (fun f => do
        wait_file fs f
        .ok [f])
      .ok (cyclePairs s c ++ filts)
    else
      .ok (cyclePairs s c))
  wait_file fs rta_complete_txt
  .ok ([run_info_xml, run_parammeters_xml] ++ laneBcis ++ first5 ++ location_files s ++ mid
    ++ [rta_configuration_xml, run_info_xml, run_parammeters_xml, rta_complete_txt]
    ++ fs.readCompleteGlobs)

/-- `Sequence.all_exists`. -/
def all_exists (fs : FS) (fileList : List String) : Bool :=
  fileList.all fs.pathExists

/-- `Sequence.is_file_complete` (nextseq.py lines 120-127).  Every conjunct
is computed eagerly before the `return`, and the two `all_bcl*` lists force
`cycle_count`, so a malformed descriptor raises. -/
def is_file_complete (fs : FS) (s : Sequence) : Except Unit Bool := do
  let cc ← cycle_count fs.runInfo
  let bcl_complete := all_exists fs (all_bcl_files s cc)
  let bci_complete := all_exists fs (all_bcl_index_files s cc)
  let lane_bci_complete := all_exists fs (lane_bci_files s)
  let locs_complete := all_exists fs (location_files s)
  let filter_complete := all_exists fs (filter_files s)
  let run_info_exists := fs.pathExists run_info_xml
  .ok (run_info_exists && locs_complete && filter_complete && lane_bci_complete && bcl_complete && bci_complete)

/-- `Sequence.is_run_complete`. -/
def is_run_complete (fs : FS) : Bool := fs.pathExists run_completion_status_xml

/-- `Sequence.is_rta_complete`. -/
def is_rta_complete (fs : FS) : Bool := fs.pathExists rta_complete_txt

/-! ## `pull.py`: the terminal completion predicate -/

/-- Disk state observed by `is_sequencing_finisehd`: the completion marker
(existence and `st_ctime`), the `RunInfo.xml` descriptor, the number of
files matched by `glob('**/*.bcl.bgzf')` under `Data/Intensities/BaseCalls`,
and the current clock (`time.time()`).  Times are natural seconds. -/
structure PullState where
  doneFlagExists : Bool
  doneFlagCtime : Nat
  runInfo : Descriptor
  bclFileCount : Nat
  now : Nat
deriving DecidableEq

/-- `is_sequencing_finisehd` (pull.py lines 150-166). -/
def is_sequencing_finisehd (s : PullState) : Except Unit Bool :=
  if !s.doneFlagExists then .ok false
  else if !s.runInfo.existsOnDisk then .ok false
  else do
    let cycles ← find_read_length s.runInfo
    if s.bclFileCount ≠ 4 * cycles then .ok false
    else .ok (decide (300 ≤ s.now - s.doneFlagCtime))

/-! ## `pull2.py`: per-file transfer (`PushTask.pull_file`)

The remote object store is observed through one object's size
(`get_object(name).content_length`, `none` = `NoSuchKey`).  A successful
`oss2.resumable_upload` followed by the `check_size` verification leaves the
remote size equal to the local size; upload failures are environmental and
are modelled elsewhere (`pull_path` below), so this model follows the
success path and counts the uploads performed. -/

structure TransferResult where
  remote : Option Nat
  writes : Nat
deriving DecidableEq

/-- `PushTask.pull_file` (pull2.py lines 156-174): `selfForce` is
`self.force`, `force` the keyword argument (`None` → fall back to
`self.force`); the skip branch requires `not force and not self.force and
remote size == local size`. -/
def pull_file (selfForce : Bool) (force : Option Bool) (localSize : Nat) (remote : Option Nat) : TransferResult :=
  let f := force.getD selfForce
  match remote with
  | some rsize =>
    if !f && !selfForce && rsize == localSize then ⟨remote, 0⟩
    else ⟨some localSize, 1⟩
  | none => ⟨some localSize, 1⟩

/-! ## `pull2.py`: one run's transfer pass (`PushTask.pull`) -/

/-- Mutable state of a `PushTask` touched by `pull`: the history dict
`known_chips` (as an association list: `dict[k] = v` is a cons, `lookup`
reads), the in-flight set `queued_chips`, the content last written to the
history file (`none` = never written), the per-run failure list
`failed_files`, and the trace of `pull_path` calls as (path, force) pairs. -/
structure PushState where
  known_chips : List (String × Nat)
  queued_chips : List String
  persisted : Option (List (String × Nat))
  failed_files : List String
  events : List (String × Bool)
deriving DecidableEq

/-- One `pull_path(path, force)` call, at path-unit granularity (directory
recursion transfers a subtree as one unit).  Whether the underlying upload
raises is environmental and is given by the oracle `fails path force`; a
failure is caught and appended to `failed_files` (pull2.py lines 172-174). -/
def pull_path (fails : String → Bool → Bool) (p : String) (force : Bool) (st : PushState) : PushState :=
  { st with
    events := st.events ++ [(p, force)],
    failed_files := if fails p force then st.failed_files ++ [p] else st.failed_files }

/-- A sequence of `pull_path` calls with a common force flag. -/
def pull_many (fails : String → Bool → Bool) (force : Bool) (ps : List String) (st : PushState) : PushState :=
  ps.foldl (fun acc p => pull_path fails p force acc) st

/-- The path units transferred by the incremental branch of `pull` before
the retry pass: recipe dir, config dir, the data files from
`iter_data_files` with the InterOp directory re-pulled after every 16th
data file (`count % 16 == 0`), the four non-important directories, and a
final InterOp pull (pull2.py lines 192-209). -/
def mainPaths (dataFiles : List String) : List String :=
  [recipe_dir, config_dir]
    ++ dataFiles.enum.flatMap (fun ip => ip.2 :: (if (ip.1 + 1) % 16 == 0 then [interop_dir] else []))
    ++ [images_dir, thumbnail_images_dir, rtalogs_dir, logs_dir]
    ++ [interop_dir]

/-- `PushTask.pull` (pull2.py lines 185-224) for the run `chip`.
`complete` is the entry check `is_file_complete() and is_run_complete()
and is_rta_complete()`; `dataFiles` the paths yielded by
`iter_data_files` (the waits inside the generator and on recipe/config
succeed in any state where `pull` runs to completion).  `self.force` is
false (its default).  On the complete branch the whole run directory is
transferred as one unit and the method returns early; otherwise the main
pass runs, every path collected in `failed_files` is re-pulled with
`force=True`, the completion marker is pulled last, and the history entry,
in-flight set and history file are updated. -/
def pull (fails : String → Bool → Bool) (chip : String) (complete : Bool) (dataFiles : List String) (st0 : PushState) : PushState :=
  let st := { st0 with failed_files := [] }
  if complete then
    pull_path fails chip false st
  else
    let st := pull_many fails false (mainPaths dataFiles) st
    let pull_error := st.failed_files
    let st := { st with failed_files := [] }
    let st := pull_many fails true pull_error st
    let st := pull_path fails run_completion_status_xml false st
    let known := (chip, 1) :: st.known_chips
    { st with
      known_chips := known,
      queued_chips := st.queued_chips.erase chip,
      persisted := some known }

/-! ## `pull2.py`: discovery (`find_new_chip`, `load_history`) -/

/-- Python's `str.split('_')`: split on every occurrence of the (one-char)
separator; the number of parts is one more than the number of separator
occurrences, and `''.split('_') == ['']`. -/
def splitOnChar (c : Char) : List Char → List (List Char)
  | [] => [[]]
  | x :: xs =>
    match splitOnChar c xs with
    | [] => [[]]
    | p :: ps => if x = c then [] :: p :: ps else (x :: p) :: ps

/-- `len(x.split('_'))`. -/
def numUnderscoreParts (x : String) : Nat :=
  (splitOnChar usep x.toList).length

/-- Producer-side shared state: the priority queue `new_chips` (a `put` is
an append; ordering is imposed at `get`) and the in-flight set
`queued_chips`. -/
structure ScanState where
  queue : List (Int × Option String)
  queued_chips : List String
deriving DecidableEq

/-- The loop body of `PushTask.find_new_chip` (pull2.py lines 106-110): a
name not in `known_chips` (key membership) and not in `queued_chips` is
`put` on the queue with priority 10 and added to `queued_chips`. -/
def scan_step (known : List (String × Nat)) (st : ScanState) (x : String) : ScanState :=
  if (known.lookup x).isNone && !(st.queued_chips.contains x) then
    { queue := st.queue ++ [(10, some x)], queued_chips := st.queued_chips ++ [x] }
  else st

/-- `PushTask.find_new_chip` (pull2.py lines 101-111): `entries` is
`os.listdir(self.dest)` paired with `is_dir()`; a name is valid when it is
a directory and splits into exactly 4 underscore-separated tokens; each
valid name is offered to `scan_step` in listing order. -/
def find_new_chip (entries : List (String × Bool)) (known : List (String × Nat)) (st : ScanState) : ScanState :=
  let valid_chips := (entries.filter (fun e => e.2 && numUnderscoreParts e.1 == 4)).map (fun e => e.1)
  valid_chips.foldl (scan_step known) st

/-- `PushTask.load_history` (pull2.py lines 80-91) when no history file
exists yet: every name currently in `dest` is recorded with flag 0. -/
def load_history_bootstrap (names : List String) : List (String × Nat) :=
  names.map (fun n => (n, 0))

/-! ## `pull2.py`: consumer loop and the priority queue -/

/-- `queue.PriorityQueue.get`: the minimum item under tuple ordering; the
first field (the priority) decides whenever priorities differ, which is
the only case arising here (ties among distinct normal items order by name,
which is irrelevant to the claims; this model takes the earliest minimal-
priority element). -/
def pqMin : List (Int × Option String) → Option (Int × Option String)
  | [] => none
  | x :: xs =>
    match pqMin xs with
    | none => some x
    | some y => if x.1 ≤ y.1 then some x else some y

/-- `PushTask.consumer` (pull2.py lines 226-233), abstracted to the
dequeue decisions: repeatedly `get` an item; a `None` chip breaks the
loop, otherwise the chip is processed and the loop continues.  `fuel`
bounds the number of iterations; `none` means the loop has not terminated
within `fuel` steps (an empty queue blocks `get` forever).  On termination
the result is the list of chips processed before the sentinel. -/
def consumer : Nat → List (Int × Option String) → Option (List String)
  | 0, _ => none
  | fuel + 1, q =>
    match pqMin q with
    | none => none
    | some (_, none) => some []
    | some (pr, some chip) => (consumer fuel (q.erase (pr, some chip))).map (fun rest => chip :: rest)

/-- The sentinel pushed by `PushTask.signal_handle` (pull2.py line 264). -/
def sentinelItem : Int × Option String := (-1, none)

/-! ## Mock filesystem and the spec-ordered path list -/

/-- The fully-populated run directory for lane count `L` and cycle count
`C`: every path the instrument ever writes for such a run (filter files
appear only for runs reaching cycle 25). -/
def mockPaths (L C : Nat) : List String :=
  [run_parammeters_xml, rta_complete_txt, rta_configuration_xml, run_completion_status_xml]
    ++ lane_bci_files ⟨L⟩ ++ location_files ⟨L⟩
    ++ (if 25 ≤ C then filter_files ⟨L⟩ else [])
    ++ all_bcl_files ⟨L⟩ C ++ all_bcl_index_files ⟨L⟩ C

/-- The fully-populated disk state: `RunInfo.xml` holds a single `Read`
element with `NumCycles = C`; `gs` is the glob result for
`RTARead*Complete.txt`. -/
def mockFS (L C : Nat) (gs : List String) : FS :=
  { files := fun p => (mockPaths L C).contains p
    runInfo := .wellFormed [some C]
    readCompleteGlobs := gs }

/-- Modelled from the spec: the transfer order of spec §4.3 for lane count
`L`, cycle count `C` and read-complete glob result `gs` — run descriptor
and run-parameters XML; each lane's lane-level index file; cycles 1–5's
per-lane data+index pairs; every lane's location file; for each cycle from
6 to `C` the per-lane data+index pairs with every lane's filter file right
after cycle 25's pairs; then RTA configuration XML, run descriptor XML,
run-parameters XML, RTA-complete marker and the globbed read-complete
markers. -/
def specOrder (L C : Nat) (gs : List String) : List String :=
  [run_info_xml, run_parammeters_xml]
    ++ lane_bci_files ⟨L⟩
    ++ (List.range' 1 5).flatMap (fun c => cyclePairs ⟨L⟩ c)
    ++ location_files ⟨L⟩
    ++ (List.range' 6 (C - 5)).flatMap (fun c => cyclePairs ⟨L⟩ c ++ (if c == 25 then filter_files ⟨L⟩ else []))
    ++ [rta_configuration_xml, run_info_xml, run_parammeters_xml, rta_complete_txt]
    ++ gs

/-! ## Concrete inputs used by witnesses and counterexamples -/

/-- A read-complete marker name, as the glob would return it. -/
def rtaRead1 : String := "RTARead1Complete.txt"

/-- A run identifier of the 4-token naming shape. -/
def chipA : String := "20200101_NS500_0001_AH23"

/-- A second run identifier of the 4-token naming shape. -/
def chipB : String := "20200202_NS500_0002_BH67"

/-- An empty run directory: nothing on disk, `RunInfo.xml` absent. -/
def emptyFS : FS := ⟨fun _ => false, .absent, []⟩

/-! ## Helper lemmas -/

theorem collectM_ok {α : Type} (xs : List α) (f : α → Except Unit (List String)) (g : α → List String)
    (h : ∀ x ∈ xs, f x = .ok (g x)) : collectM xs f = .ok (xs.flatMap g) := by
  induction xs with
  | nil => rfl
  | cons x rest ih =>
    have hx := h x (by simp)
    have hr := ih (fun y hy => h y (by simp [hy]))
    simp only [collectM, hx, hr, List.flatMap_cons]
    rfl

theorem contains_of_mem {p : String} {l : List String} (hp : p ∈ l) : l.contains p = true := by
  simpa using List.elem_iff.mpr hp

theorem pathExists_mock_of_mem {L C : Nat} {gs : List String} {p : String}
    (hp : p ∈ mockPaths L C ∨ p = run_info_xml) : (mockFS L C gs).pathExists p = true := by
  rcases hp with hp | hp
  · by_cases hri : p = run_info_xml
    · simp [FS.pathExists, mockFS, hri, Descriptor.existsOnDisk]
    · simp only [FS.pathExists, mockFS, if_neg hri]
      exact contains_of_mem hp
  · simp [FS.pathExists, mockFS, hp, Descriptor.existsOnDisk]

theorem wait_file_mock {L C : Nat} {gs : List String} {p : String}
    (hp : p ∈ mockPaths L C ∨ p = run_info_xml) : wait_file (mockFS L C gs) p = .ok () := by
  simp [wait_file, pathExists_mock_of_mem hp]

theorem bcl_mem_mock {L C c lane : Nat} (hL : 1 ≤ lane) (hL2 : lane ≤ L) (hc1 : 1 ≤ c) (hc2 : c ≤ C) :
    cycle_bcl_files c lane ∈ mockPaths L C := by
  have h : cycle_bcl_files c lane ∈ all_bcl_files ⟨L⟩ C := by
    simp only [all_bcl_files, List.mem_flatMap]
    refine ⟨lane, ?_, ?_⟩
    · simp [laneRange, List.mem_range'_1]; omega
    · simp only [List.mem_map]
      exact ⟨c, by simp [List.mem_range'_1]; omega, rfl⟩
  simp [mockPaths]
  tauto

theorem exceptOkBind {α β : Type} (a : α) (f : α → Except Unit β) : (Except.ok a >>= f) = f a := rfl

theorem collectM_yield_self (fs : FS) (xs : List String) (h : ∀ x ∈ xs, wait_file fs x = .ok ()) :
    collectM xs (fun f => do wait_file fs f; Except.ok [f]) = .ok xs := by
  have h2 := collectM_ok xs (fun f => do wait_file fs f; Except.ok [f]) (fun f => [f])
    (fun x hx => by simp only [h x hx]; rfl)
  simpa using h2

theorem lane_bci_mem_mock {L C : Nat} {x : String} (hx : x ∈ lane_bci_files ⟨L⟩) :
    x ∈ mockPaths L C := by
  simp [mockPaths]; tauto

theorem filter_mem_mock {L C : Nat} {x : String} (hC : 25 ≤ C) (hx : x ∈ filter_files ⟨L⟩) :
    x ∈ mockPaths L C := by
  simp [mockPaths, hC]; tauto

theorem mid_mem_range {C c : Nat} (hC : 6 ≤ C) (hc : c ∈ List.range' 6 (C - 5)) :
    6 ≤ c ∧ c ≤ C := by
  rw [List.mem_range'_1] at hc; omega

theorem iter_mock (L C : Nat) (gs : List String) (hL : 1 ≤ L) (hC : 6 ≤ C) :
    iter_data_files (mockFS L C gs) ⟨L⟩ = .ok (specOrder L C gs) := by
  have hcc : cycle_count (mockFS L C gs).runInfo = .ok C := by
    simp [mockFS, cycle_count, sumNumCycles]
  have h1 : wait_file (mockFS L C gs) run_info_xml = .ok () := wait_file_mock (Or.inr rfl)
  have h2 : wait_file (mockFS L C gs) run_parammeters_xml = .ok () :=
    wait_file_mock (Or.inl (by simp [mockPaths]))
  have hbci : collectM (lane_bci_files ⟨L⟩) (fun f => do wait_file (mockFS L C gs) f; Except.ok [f]) = .ok (lane_bci_files ⟨L⟩) :=
    collectM_yield_self _ _ (fun x hx => wait_file_mock (Or.inl (lane_bci_mem_mock hx)))
  have hfirst5 : collectM (List.range' 1 5) (fun c => do wait_cycle (mockFS L C gs) c; Except.ok (cyclePairs ⟨L⟩ c)) = .ok ((List.range' 1 5).flatMap (cyclePairs ⟨L⟩)) := by
    refine collectM_ok _ _ _ (fun c hc => ?_)
    rw [List.mem_range'_1] at hc
    rw [show wait_cycle (mockFS L C gs) c = .ok () from wait_file_mock (Or.inl (bcl_mem_mock le_rfl hL (by omega) (by omega)))]
    rfl
  have h6 : wait_file (mockFS L C gs) (cycle_bcl_files 6 1) = .ok () :=
    wait_file_mock (Or.inl (bcl_mem_mock le_rfl hL (by omega) (by omega)))
  have hrta : wait_file (mockFS L C gs) rta_complete_txt = .ok () :=
    wait_file_mock (Or.inl (by simp [mockPaths]))
  have hmid : collectM (List.range' 6 (C - 5)) (fun c => do
      wait_cycle (mockFS L C gs) c
      if c == 25 then do
        let filts ← collectM (filter_files ⟨L⟩) (fun f => do wait_file (mockFS L C gs) f; Except.ok [f])
        Except.ok (cyclePairs ⟨L⟩ c ++ filts)
      else
        Except.ok (cyclePairs ⟨L⟩ c)) = .ok ((List.range' 6 (C - 5)).flatMap (fun c => cyclePairs ⟨L⟩ c ++ (if c == 25 then filter_files ⟨L⟩ else []))) := by
    refine collectM_ok _ _ _ (fun c hc => ?_)
    obtain ⟨hc1, hc2⟩ := mid_mem_range hC hc
    rw [show wait_cycle (mockFS L C gs) c = .ok () from wait_file_mock (Or.inl (bcl_mem_mock le_rfl hL (by omega) hc2))]
    by_cases h25 : c = 25
    · subst h25
      have hf : collectM (filter_files ⟨L⟩) (fun f => do wait_file (mockFS L C gs) f; Except.ok [f]) = .ok (filter_files ⟨L⟩) :=
        collectM_yield_self _ _ (fun x hx => wait_file_mock (Or.inl (filter_mem_mock hc2 hx)))
      simp [hf]
      rfl
    · simp [h25]
      rfl
  simp only [iter_data_files, h1, h2, hbci, hfirst5, h6, hcc, hrta, hmid, exceptOkBind]
  simp [specOrder, mockFS, List.append_assoc]

theorem length_flatMap_const {α : Type} (xs : List α) (g : α → List String) (k : Nat)
    (h : ∀ x ∈ xs, (g x).length = k) : (xs.flatMap g).length = k * xs.length := by
  induction xs with
  | nil => simp
  | cons x rest ih =>
    simp only [List.flatMap_cons, List.length_append, List.length_cons, h x (by simp),
      ih (fun y hy => h y (by simp [hy]))]
    ring

theorem length_cyclePairs (L c : Nat) : (cyclePairs ⟨L⟩ c).length = 2 * L := by
  rw [cyclePairs, length_flatMap_const _ _ 2 (fun x _ => by simp)]
  simp [laneRange]

theorem length_lane_bci (L : Nat) : (lane_bci_files ⟨L⟩).length = L := by
  simp [lane_bci_files, laneRange]

theorem length_locs (L : Nat) : (location_files ⟨L⟩).length = L := by
  simp [location_files, laneRange]

theorem length_filters (L : Nat) : (filter_files ⟨L⟩).length = L := by
  simp [filter_files, laneRange]

theorem count_range' (a s n : Nat) : (List.range' s n).count a = if s ≤ a ∧ a < s + n then 1 else 0 := by
  induction n generalizing s with
  | zero => rw [if_neg (by omega)]; simp
  | succ m ih =>
    rw [List.range'_succ, List.count_cons, ih (s + 1)]
    by_cases hsa : s = a
    · subst hsa
      have h1 : ¬ (s + 1 ≤ s ∧ s < s + 1 + m) := by omega
      have h2 : s ≤ s ∧ s < s + (m + 1) := by omega
      simp [h1, h2]
    · have : (s == a) = false := by simp [hsa]
      simp [this, hsa]
      by_cases h1 : s + 1 ≤ a ∧ a < s + 1 + m
      · rw [if_pos h1, if_pos (by omega)]
      · rw [if_neg h1, if_neg (by omega)]

theorem length_mid (L : Nat) (cs : List Nat) :
    (cs.flatMap (fun c => cyclePairs ⟨L⟩ c ++ (if c == 25 then filter_files ⟨L⟩ else []))).length
      = 2 * L * cs.length + L * cs.count 25 := by
  induction cs with
  | nil => simp
  | cons c rest ih =>
    simp only [List.flatMap_cons, List.length_append, ih, List.count_cons, List.length_cons]
    by_cases h25 : c = 25
    · subst h25
      simp [length_cyclePairs, length_filters]
      ring
    · have hb : (c == 25) = false := by simp [h25]
      simp [hb, length_cyclePairs]
      ring

theorem specOrder_length (L C : Nat) (gs : List String) (hC : 6 ≤ C) :
    (specOrder L C gs).length
      = 2 + L + 5 * 2 * L + L + (C - 5) * 2 * L + (if 25 ≤ C then L else 0) + 4 + gs.length := by
  have hm := length_mid L (List.range' 6 (C - 5))
  rw [count_range' 25 6 (C - 5)] at hm
  have h5 : ((List.range' 1 5).flatMap (cyclePairs ⟨L⟩)).length = 2 * L * 5 :=
    by rw [length_flatMap_const _ _ (2 * L) (fun c _ => length_cyclePairs L c)]; simp
  simp only [specOrder, List.length_append, List.length_cons, List.length_nil,
    length_lane_bci, length_locs, hm, h5, List.length_range']
  by_cases h25 : 25 ≤ C
  · rw [if_pos (by omega), if_pos h25]
    ring_nf
  · rw [if_neg (by omega), if_neg h25]
    ring_nf

/-! ## The claims -/


/-- C6: `cycle_count` sums the `NumCycles` attribute over every
`Run/Reads/Read` element (a missing attribute contributing 0) on a
well-formed descriptor, returns the large sentinel 9999 when the
descriptor file does not exist, and on a malformed descriptor raises a
parse error rather than returning any number. -/
theorem c6_cycle_count_policy :
    (∀ reads, cycle_count (.wellFormed reads) = .ok ((reads.map (fun r => r.getD 0)).sum))
      ∧ cycle_count .absent = .ok 9999
      ∧ cycle_count .malformed = .error ()
      ∧ ∀ n, cycle_count .malformed ≠ .ok n := by
  refine ⟨fun reads => rfl, rfl, rfl, fun n => ?_⟩
  simp [cycle_count]

/-- Witness for C6: the malformed case at a concrete value. -/
theorem c6_witness : cycle_count .malformed ≠ .ok 0 :=
  c6_cycle_count_policy.2.2.2 0

/-- C10: whenever `RunInfo.xml` is absent, `cycle_count` evaluates to the
large sentinel, yet `is_file_complete` still returns false, because the
descriptor's existence is an explicit conjunct of the predicate. -/
theorem c10_no_descriptor_incomplete (fs : FS) (s : Sequence) (h : fs.runInfo = .absent) :
    cycle_count fs.runInfo = .ok 9999 ∧ is_file_complete fs s = .ok false := by
  have hri : fs.pathExists run_info_xml = false := by
    simp [FS.pathExists, h, Descriptor.existsOnDisk]
  constructor
  · simp [h, cycle_count]
  · simp only [is_file_complete, h, cycle_count, exceptOkBind, hri]
    simp

/-- Witness for C10 at the empty run directory. -/
theorem c10_witness : cycle_count emptyFS.runInfo = .ok 9999 ∧ is_file_complete emptyFS ⟨4⟩ = .ok false :=
  c10_no_descriptor_incomplete emptyFS ⟨4⟩ rfl

/-- C1: `is_sequencing_finisehd` returns true iff the run-completion
marker exists, the on-disk base-call data-file count equals 4 times the
cycle count parsed from the (well-formed) run descriptor, and at least
300 seconds have elapsed since the marker's creation time; it never
returns true when any of the three conditions fails (when the descriptor
is present but malformed the parse raises instead of returning). -/
theorem c1_run_complete_iff (s : PullState) :
    is_sequencing_finisehd s = .ok true ↔
      (s.doneFlagExists = true
        ∧ (∃ reads, s.runInfo = .wellFormed reads ∧ s.bclFileCount = 4 * sumNumCycles reads)
        ∧ 300 ≤ s.now - s.doneFlagCtime) := by
  obtain ⟨d, ct, ri, n, now⟩ := s
  cases d
  · simp [is_sequencing_finisehd]
  · cases ri with
    | absent => simp [is_sequencing_finisehd, Descriptor.existsOnDisk]
    | malformed =>
      simp [is_sequencing_finisehd, Descriptor.existsOnDisk, find_read_length, Bind.bind, Except.bind]
    | wellFormed reads =>
      simp only [is_sequencing_finisehd, Descriptor.existsOnDisk, find_read_length, Bool.not_true,
        Bool.false_eq_true, if_false, exceptOkBind]
      by_cases hn : n = 4 * sumNumCycles reads
      · subst hn
        simp [decide_eq_true_eq]
      · rw [if_pos hn]
        simp [hn]

/-- Witness for C1: all three conditions hold at a concrete state. -/
theorem c1_witness :
    is_sequencing_finisehd ⟨true, 50, .wellFormed [some 2], 8, 400⟩ = .ok true :=
  (c1_run_complete_iff ⟨true, 50, .wellFormed [some 2], 8, 400⟩).mpr
    ⟨rfl, ⟨[some 2], rfl, by decide⟩, by decide⟩

/-- C7: transfer is idempotent under the size-skip policy: a first
`pull_file` (any local force argument, global force off) leaves the
remote object's size equal to the local size, and a second call with
force false on the unchanged file takes the skip branch and performs zero
remote writes. -/
theorem c7_idempotent_transfer (force1 : Option Bool) (L : Nat) (remote : Option Nat) :
    (pull_file false force1 L remote).remote = some L
      ∧ (pull_file false (some false) L (some L)).writes = 0 := by
  constructor
  · rcases remote with _ | r
    · rfl
    · simp only [pull_file]
      split_ifs with h
      · simp only [Bool.and_eq_true, beq_iff_eq] at h
        simp [h.2]
      · rfl
  · simp [pull_file]

/-- C2: on a fully-populated run directory with lane count `L ≥ 1` and
cycle count `C ≥ 6`, `iter_data_files` yields exactly the path sequence
of spec §4.3: the two descriptor XMLs, the lane-level index files, the
per-lane data+index pairs of cycles 1-5, every lane's location file
(gated only on lane 1's cycle-6 data file), the per-lane data+index pairs
of cycles 6..C with every lane's filter file immediately after cycle 25's
pairs, and finally the RTA configuration XML, run descriptor XML,
run-parameters XML, RTA-complete marker and the globbed read-complete
markers, in that order. -/
theorem c2_yield_order (L C : Nat) (gs : List String) (hL : 1 ≤ L) (hC : 6 ≤ C) :
    iter_data_files (mockFS L C gs) ⟨L⟩ = .ok (specOrder L C gs) :=
  iter_mock L C gs hL hC

/-- Witness for C2 at `L = 1`, `C = 25`, one read-complete marker. -/
theorem c2_yield_order_witness :
    iter_data_files (mockFS 1 25 [rtaRead1]) ⟨1⟩ = .ok (specOrder 1 25 [rtaRead1]) :=
  c2_yield_order 1 25 [rtaRead1] (by decide) (by decide)

/-- C5 counterexample: at `L = 1`, `C = 6`, no read-complete markers, the
generator yields 20 paths, while the claimed formula
`2 + L + 5·2·L + L + (C-5)·2·L + filters + 5 + readCompleteCount`
gives 21: the trailing constant of the formula is wrong (the final block
yields 4 fixed paths, not 5). -/
theorem c5_counterexample :
    Except.map List.length (iter_data_files (mockFS 1 6 []) ⟨1⟩) = .ok 20
      ∧ (20 : Nat) ≠ 2 + 1 + 5 * 2 * 1 + 1 + (6 - 5) * 2 * 1 + 0 + 5 + 0 :=
  ⟨rfl, by decide⟩

/-- C5 (amended): on a fully-populated run directory with `L ≥ 1` and
`C ≥ 6`, `iter_data_files` yields exactly
`2 + L + 5·2·L + L + (C-5)·2·L + (L filter files, iff C ≥ 25) + 4 +
readCompleteCount` paths. -/
theorem c5_yield_count (L C : Nat) (gs : List String) (hL : 1 ≤ L) (hC : 6 ≤ C) :
    Except.map List.length (iter_data_files (mockFS L C gs) ⟨L⟩)
      = .ok (2 + L + 5 * 2 * L + L + (C - 5) * 2 * L + (if 25 ≤ C then L else 0) + 4 + gs.length) := by
  rw [iter_mock L C gs hL hC]
  simp only [Except.map]
  rw [specOrder_length L C gs hC]

/-- Witness for C5 (amended) at `L = 4`, `C = 26`, one marker. -/
theorem c5_yield_count_witness :
    Except.map List.length (iter_data_files (mockFS 4 26 [rtaRead1]) ⟨4⟩)
      = .ok (2 + 4 + 5 * 2 * 4 + 4 + (26 - 5) * 2 * 4 + (if 25 ≤ 26 then 4 else 0) + 4 + [rtaRead1].length) :=
  c5_yield_count 4 26 [rtaRead1] (by decide) (by decide)

/-- A transfer pass appends one event per path and collects exactly the
paths on which the upload oracle fails. -/
theorem pull_many_spec (fails : String → Bool → Bool) (force : Bool) (ps : List String) (st : PushState) :
    pull_many fails force ps st =
      { st with
        events := st.events ++ ps.map (fun p => (p, force)),
        failed_files := st.failed_files ++ ps.filter (fun p => fails p force) } := by
  induction ps generalizing st with
  | nil => simp [pull_many]
  | cons p rest ih =>
    have hstep : pull_many fails force (p :: rest) st = pull_many fails force rest (pull_path fails p force st) := rfl
    rw [hstep, ih]
    simp only [pull_path, List.map_cons, List.filter_cons]
    by_cases h : fails p force
    · simp [h]
    · simp [h]

/-- C3 (amended): for every run processed through the incremental branch
of `pull` (completion predicates not all holding at entry), processing
ends with every path that failed during the transfer pass retried exactly
once more with forcing enabled, the run-completion marker transferred
last of all paths, the run identifier recorded in History with flag 1,
the run identifier removed from the in-flight set, and History persisted
(with exactly that content) before `pull` returns, i.e. before the next
run is dequeued.  A run whose completion predicates already hold at entry
takes the early-return branch and skips all of these steps (see the
counterexample). -/
theorem c3_normal_run_end (fails : String → Bool → Bool) (chip : String) (dataFiles : List String) (st0 : PushState) :
    (pull fails chip false dataFiles st0).events
        = st0.events ++ (mainPaths dataFiles).map (fun p => (p, false))
            ++ ((mainPaths dataFiles).filter (fun p => fails p false)).map (fun p => (p, true))
            ++ [(run_completion_status_xml, false)]
      ∧ List.lookup chip (pull fails chip false dataFiles st0).known_chips = some 1
      ∧ (pull fails chip false dataFiles st0).queued_chips = st0.queued_chips.erase chip
      ∧ (pull fails chip false dataFiles st0).persisted
          = some (pull fails chip false dataFiles st0).known_chips := by
  refine ⟨?_, ?_, ?_, ?_⟩
  · simp only [pull, Bool.false_eq_true, if_false, pull_many_spec, pull_path]
    simp [List.append_assoc]
  · simp only [pull, Bool.false_eq_true, if_false, pull_many_spec, pull_path]
    simp [List.lookup_cons]
  · simp only [pull, Bool.false_eq_true, if_false, pull_many_spec, pull_path]
  · simp only [pull, Bool.false_eq_true, if_false, pull_many_spec, pull_path]

/-- C3 counterexample: a run whose completion predicates already hold at
entry is transferred as one directory unit and `pull` returns early: the
chip stays in the in-flight set, History never records it, nothing is
persisted, and the completion marker is not transferred as a separate
final path. -/
theorem c3_counterexample :
    (pull (fun _ _ => false) chipA true [] ⟨[], [chipA], none, [], []⟩).queued_chips = [chipA]
      ∧ List.lookup chipA (pull (fun _ _ => false) chipA true [] ⟨[], [chipA], none, [], []⟩).known_chips = none
      ∧ (pull (fun _ _ => false) chipA true [] ⟨[], [chipA], none, [], []⟩).persisted = none
      ∧ (pull (fun _ _ => false) chipA true [] ⟨[], [chipA], none, [], []⟩).events = [(chipA, false)] :=
  ⟨rfl, rfl, rfl, rfl⟩

theorem contains_true_iff {l : List String} {x : String} : l.contains x = true ↔ x ∈ l :=
  List.elem_iff

theorem contains_false_iff {l : List String} {x : String} : l.contains x = false ↔ x ∉ l := by
  constructor
  · intro h hmem
    rw [contains_true_iff.mpr hmem] at h
    cases h
  · intro h
    rcases hh : l.contains x
    · rfl
    · exact absurd (contains_true_iff.mp hh) h

theorem scan_fold_cons (known : List (String × Nat)) (v : String) (rest : List String) (st : ScanState) :
    (v :: rest).foldl (scan_step known) st = rest.foldl (scan_step known) (scan_step known st v) := rfl

theorem scan_step_of_cond {known : List (String × Nat)} {st : ScanState} {v : String}
    (hc : ((known.lookup v).isNone && !(st.queued_chips.contains v)) = true) :
    scan_step known st v = ⟨st.queue ++ [(10, some v)], st.queued_chips ++ [v]⟩ := by
  simp only [scan_step]
  rw [if_pos hc]

theorem scan_step_of_not_cond {known : List (String × Nat)} {st : ScanState} {v : String}
    (hc : ¬ ((known.lookup v).isNone && !(st.queued_chips.contains v)) = true) :
    scan_step known st v = st := by
  simp only [scan_step]
  rw [if_neg hc]

theorem scan_step_queued_mono (known : List (String × Nat)) (st : ScanState) (v y : String)
    (h : st.queued_chips.contains y = true) :
    (scan_step known st v).queued_chips.contains y = true := by
  by_cases hc : ((known.lookup v).isNone && !(st.queued_chips.contains v)) = true
  · rw [scan_step_of_cond hc]
    exact contains_true_iff.mpr (List.mem_append.mpr (Or.inl (contains_true_iff.mp h)))
  · rw [scan_step_of_not_cond hc]
    exact h

theorem scan_fold_count_mono (known : List (String × Nat)) (vs : List String) (st : ScanState) (it : Int × Option String) :
    st.queue.count it ≤ (vs.foldl (scan_step known) st).queue.count it := by
  induction vs generalizing st with
  | nil => exact le_rfl
  | cons v rest ih =>
    rw [scan_fold_cons]
    refine le_trans ?_ (ih _)
    by_cases hc : ((known.lookup v).isNone && !(st.queued_chips.contains v)) = true
    · rw [scan_step_of_cond hc]
      simp [List.count_append]
    · rw [scan_step_of_not_cond hc]

theorem scan_fold_count_le (known : List (String × Nat)) (vs : List String) (st : ScanState) (x : String) :
    (vs.foldl (scan_step known) st).queue.count (10, some x)
      ≤ st.queue.count (10, some x)
          + (if (known.lookup x).isSome = true ∨ st.queued_chips.contains x = true then 0 else 1) := by
  induction vs generalizing st with
  | nil => simp
  | cons v rest ih =>
    rw [scan_fold_cons]
    refine le_trans (ih _) ?_
    by_cases hc : ((known.lookup v).isNone && !(st.queued_chips.contains v)) = true
    · rw [scan_step_of_cond hc]
      obtain ⟨hk, hq⟩ := Bool.and_eq_true_iff.mp hc
      by_cases hxv : v = x
      · subst hxv
        have e1 : (st.queue ++ [((10 : Int), some v)]).count (10, some v) = st.queue.count (10, some v) + 1 := by
          simp [List.count_append]
        have e2 : ((st.queued_chips ++ [v]).contains v) = true :=
          contains_true_iff.mpr (List.mem_append.mpr (Or.inr (List.mem_singleton.mpr rfl)))
        have hks : (known.lookup v).isSome = false := by
          rcases hh : known.lookup v with _ | w
          · rfl
          · rw [hh] at hk; cases hk
        have hqf : st.queued_chips.contains v = false := by
          rcases hh : st.queued_chips.contains v
          · rfl
          · rw [hh] at hq; cases hq
        rw [e1, if_pos (Or.inr e2), if_neg (by rw [hks, hqf]; simp)]
      · have e1 : (st.queue ++ [((10 : Int), some v)]).count (10, some x) = st.queue.count (10, some x) := by
          simp [List.count_append, List.count_singleton, hxv]
        have e2 : ((st.queued_chips ++ [v]).contains x) = st.queued_chips.contains x := by
          rcases hh : st.queued_chips.contains x
          · refine contains_false_iff.mpr ?_
            intro hmem
            rcases List.mem_append.mp hmem with h1 | h1
            · exact absurd h1 (contains_false_iff.mp hh)
            · exact hxv (List.mem_singleton.mp h1).symm
          · exact contains_true_iff.mpr (List.mem_append.mpr (Or.inl (contains_true_iff.mp hh)))
        rw [e1, e2]
    · rw [scan_step_of_not_cond hc]

theorem scan_fold_mem (known : List (String × Nat)) (vs : List String) (st : ScanState) (pr : Int) (x : String)
    (h : (pr, some x) ∈ (vs.foldl (scan_step known) st).queue) :
    (pr, some x) ∈ st.queue
      ∨ (x ∈ vs ∧ pr = 10 ∧ (known.lookup x).isNone = true ∧ st.queued_chips.contains x = false) := by
  induction vs generalizing st with
  | nil => exact Or.inl h
  | cons v rest ih =>
    rw [scan_fold_cons] at h
    rcases ih _ h with h1 | ⟨hmem, hpr, hk, hq⟩
    · by_cases hc : ((known.lookup v).isNone && !(st.queued_chips.contains v)) = true
      · rw [scan_step_of_cond hc] at h1
        rcases List.mem_append.mp h1 with h2 | h2
        · exact Or.inl h2
        · simp only [List.mem_singleton] at h2
          have hpr : pr = 10 := congrArg Prod.fst h2
          have hx : x = v := Option.some.inj (congrArg Prod.snd h2)
          subst hx
          obtain ⟨hkk, hqq⟩ := Bool.and_eq_true_iff.mp hc
          have hqf : st.queued_chips.contains x = false := by
            rcases hh : st.queued_chips.contains x
            · rfl
            · rw [hh] at hqq; cases hqq
          exact Or.inr ⟨List.mem_cons_self _ _, hpr, hkk, hqf⟩
      · rw [scan_step_of_not_cond hc] at h1
        exact Or.inl h1
    · refine Or.inr ⟨List.mem_cons_of_mem _ hmem, hpr, hk, ?_⟩
      rcases hh : st.queued_chips.contains x
      · rfl
      · rw [scan_step_queued_mono known st v x hh] at hq
        cases hq

theorem scan_fold_count_frozen (known : List (String × Nat)) (vs : List String) (st : ScanState) (x : String)
    (h : (known.lookup x).isSome = true ∨ st.queued_chips.contains x = true) :
    (vs.foldl (scan_step known) st).queue.count (10, some x) = st.queue.count (10, some x) := by
  refine le_antisymm ?_ (scan_fold_count_mono known vs st (10, some x))
  have hle := scan_fold_count_le known vs st x
  rw [if_pos h] at hle
  simpa using hle

/-- C4: a producer scan enqueues an identifier only if it names a
directory whose name splits into exactly 4 underscore-separated tokens,
it is not a key of History, and it is not in the in-flight set; a scan
adds at most one queue entry per identifier, and adds none at all for an
identifier that is in History (with any flag) or already in flight. -/
theorem c4_producer_filter (entries : List (String × Bool)) (known : List (String × Nat)) (st : ScanState) (pr : Int) (x : String) :
    ((pr, some x) ∈ (find_new_chip entries known st).queue →
        (pr, some x) ∈ st.queue
          ∨ ((x, true) ∈ entries ∧ numUnderscoreParts x = 4 ∧ pr = 10
              ∧ (known.lookup x).isNone = true ∧ st.queued_chips.contains x = false))
      ∧ (find_new_chip entries known st).queue.count (10, some x)
          ≤ st.queue.count (10, some x)
              + (if (known.lookup x).isSome = true ∨ st.queued_chips.contains x = true then 0 else 1)
      ∧ ((known.lookup x).isSome = true ∨ st.queued_chips.contains x = true →
          (find_new_chip entries known st).queue.count (10, some x) = st.queue.count (10, some x)) := by
  refine ⟨?_, ?_, ?_⟩
  · intro h
    rcases scan_fold_mem known _ st pr x h with h1 | ⟨hmem, hpr, hk, hq⟩
    · exact Or.inl h1
    · right
      obtain ⟨e, he, hex⟩ := List.mem_map.mp hmem
      obtain ⟨hee, hef⟩ := List.mem_filter.mp he
      obtain ⟨he2, he1⟩ := Bool.and_eq_true_iff.mp hef
      have hparts : numUnderscoreParts e.1 = 4 := by simpa using he1
      rcases e with ⟨en, ed⟩
      simp only at hex
      subst hex
      have hed : ed = true := he2
      subst hed
      exact ⟨hee, hparts, hpr, hk, hq⟩
  · exact scan_fold_count_le known _ st x
  · intro h
    exact scan_fold_count_frozen known _ st x h

/-- Witness for C4: a freshly discovered directory is enqueued, so the
enqueue-characterisation applies to it. -/
theorem c4_producer_filter_witness :
    (chipA, true) ∈ [(chipA, true)] ∧ numUnderscoreParts chipA = 4 := by
  have h := (c4_producer_filter [(chipA, true)] [] ⟨[], []⟩ 10 chipA).1 (by decide)
  rcases h with h1 | h2
  · exact absurd h1 (by decide)
  · exact ⟨h2.1, h2.2.1⟩

theorem bootstrap_lookup_isSome {names : List String} {x : String} (h : x ∈ names) :
    ((load_history_bootstrap names).lookup x).isSome = true := by
  induction names with
  | nil => cases h
  | cons n rest ih =>
    simp only [load_history_bootstrap, List.map_cons, List.lookup_cons]
    rcases List.mem_cons.mp h with h1 | h1
    · subst h1
      simp
    · by_cases hxn : x = n
      · subst hxn; simp
      · have hb : (x == n) = false := by simp [hxn]
        rw [hb]
        exact ih h1

/-- C9: discovery filters by History key membership, not by the stored
flag value: `find_new_chip` is invariant under any change of History that
preserves key membership, and every identifier written with flag 0 by the
first-startup bootstrap is never enqueued, exactly as if it carried
flag 1. -/
theorem c9_history_key_membership :
    (∀ (entries : List (String × Bool)) (known known' : List (String × Nat)) (st : ScanState),
        (∀ y, (known.lookup y).isSome = (known'.lookup y).isSome) →
        find_new_chip entries known st = find_new_chip entries known' st)
      ∧ ∀ (entries : List (String × Bool)) (names : List String) (st : ScanState) (x : String),
          x ∈ names →
          (find_new_chip entries (load_history_bootstrap names) st).queue.count (10, some x)
            = st.queue.count (10, some x) := by
  constructor
  · intro entries known known' st h
    have hstep : scan_step known = scan_step known' := by
      funext st x
      have hiso : (known.lookup x).isNone = (known'.lookup x).isNone := by
        have hb := h x
        rcases h1 : known.lookup x with _ | v <;> rcases h2 : known'.lookup x with _ | w <;>
          rw [h1, h2] at hb <;> first | rfl | cases hb
      simp only [scan_step, hiso]
    simp only [find_new_chip, hstep]
  · intro entries names st x h
    exact scan_fold_count_frozen (load_history_bootstrap names) _ st x
      (Or.inl (bootstrap_lookup_isSome h))

/-- Witness for C9: a directory recorded by the bootstrap (flag 0) is not
enqueued by the next scan. -/
theorem c9_witness :
    (find_new_chip [(chipA, true)] (load_history_bootstrap [chipA]) ⟨[], []⟩).queue.count (10, some chipA)
      = ([] : List (Int × Option String)).count (10, some chipA) :=
  c9_history_key_membership.2 [(chipA, true)] [chipA] ⟨[], []⟩ chipA (by decide)

theorem pqMin_eq_none {q : List (Int × Option String)} : pqMin q = none ↔ q = [] := by
  cases q with
  | nil => simp [pqMin]
  | cons a rest =>
    simp only [pqMin]
    cases pqMin rest with
    | none => simp
    | some y =>
      by_cases h : a.1 ≤ y.1 <;> simp [h]

theorem pqMin_mem {q : List (Int × Option String)} {x : Int × Option String} (h : pqMin q = some x) :
    x ∈ q := by
  induction q generalizing x with
  | nil => cases h
  | cons a rest ih =>
    simp only [pqMin] at h
    cases hr : pqMin rest with
    | none =>
      rw [hr] at h
      have h2 : some a = some x := h
      exact (Option.some.inj h2) ▸ List.mem_cons_self _ _
    | some y =>
      rw [hr] at h
      have h2 : (if a.1 ≤ y.1 then some a else some y) = some x := h
      by_cases hle : a.1 ≤ y.1
      · rw [if_pos hle] at h2
        exact (Option.some.inj h2) ▸ List.mem_cons_self _ _
      · rw [if_neg hle] at h2
        exact List.mem_cons_of_mem _ (ih ((Option.some.inj h2) ▸ hr))

theorem pqMin_le {q : List (Int × Option String)} {x : Int × Option String} (h : pqMin q = some x) :
    ∀ y ∈ q, x.1 ≤ y.1 := by
  induction q generalizing x with
  | nil => cases h
  | cons a rest ih =>
    intro y hy
    simp only [pqMin] at h
    cases hr : pqMin rest with
    | none =>
      have hrest : rest = [] := pqMin_eq_none.mp hr
      subst hrest
      rw [hr] at h
      have h2 : some a = some x := h
      rcases List.mem_singleton.mp hy with rfl
      rw [← Option.some.inj h2]
    | some z =>
      rw [hr] at h
      have h2 : (if a.1 ≤ z.1 then some a else some z) = some x := h
      rcases List.mem_cons.mp hy with heq | hy2
      · subst heq
        by_cases hle : y.1 ≤ z.1
        · rw [if_pos hle] at h2
          rw [← Option.some.inj h2]
        · rw [if_neg hle] at h2
          rw [← Option.some.inj h2]
          omega
      · by_cases hle : a.1 ≤ z.1
        · rw [if_pos hle] at h2
          rw [← Option.some.inj h2]
          exact le_trans hle (ih hr y hy2)
        · rw [if_neg hle] at h2
          rw [← Option.some.inj h2]
          exact ih hr y hy2

theorem sentinel_dequeued_first {q : List (Int × Option String)}
    (hall : ∀ item ∈ q, item = sentinelItem ∨ ∃ x, item = ((10 : Int), some x))
    (hs : sentinelItem ∈ q) : pqMin q = some sentinelItem := by
  cases hm : pqMin q with
  | none =>
    rw [pqMin_eq_none.mp hm] at hs
    cases hs
  | some m =>
    have hmem := pqMin_mem hm
    have hle := pqMin_le hm sentinelItem hs
    rcases hall m hmem with h1 | ⟨x, h2⟩
    · rw [h1]
    · rw [h2] at hle
      simp only [sentinelItem] at hle
      omega

/-- C8: the consumer loop terminates only by dequeuing the null-run-id
sentinel, and in every queue state holding the sentinel (priority -1)
together with normally-enqueued items (priority 10) the sentinel is
dequeued first, so after a shutdown request the consumer stops without
starting a new run. -/
theorem c8_sentinel_shutdown :
    (∀ (fuel : Nat) (q : List (Int × Option String)) (l : List String),
        consumer fuel q = some l → ∃ pr : Int, (pr, (none : Option String)) ∈ q)
      ∧ ∀ q : List (Int × Option String),
          (∀ item ∈ q, item = sentinelItem ∨ ∃ x, item = ((10 : Int), some x)) →
          sentinelItem ∈ q →
          pqMin q = some sentinelItem ∧ ∀ fuel : Nat, consumer (fuel + 1) q = some [] := by
  constructor
  · intro fuel
    induction fuel with
    | zero => intro q l h; cases h
    | succ n ih =>
      intro q l h
      simp only [consumer] at h
      cases hm : pqMin q with
      | none => rw [hm] at h; cases h
      | some item =>
        rw [hm] at h
        rcases item with ⟨pr, oc⟩
        cases oc with
        | none => exact ⟨pr, pqMin_mem hm⟩
        | some chip =>
          simp only at h
          cases hcons : consumer n (q.erase (pr, some chip)) with
          | none => rw [hcons] at h; cases h
          | some rest =>
            obtain ⟨pr2, hmem⟩ := ih _ _ hcons
            exact ⟨pr2, List.mem_of_mem_erase hmem⟩
  · intro q hall hs
    have hfirst := sentinel_dequeued_first hall hs
    refine ⟨hfirst, fun fuel => ?_⟩
    simp only [consumer]
    rw [hfirst]
    rfl

/-- Witness for C8: with one normal item and the sentinel queued, the
sentinel is dequeued first and the consumer stops processing no chip. -/
theorem c8_witness :
    pqMin [((10 : Int), some chipA), sentinelItem] = some sentinelItem
      ∧ consumer 1 [((10 : Int), some chipA), sentinelItem] = some [] := by
  have h := c8_sentinel_shutdown.2 [((10 : Int), some chipA), sentinelItem]
    (by
      intro item hi
      rcases List.mem_cons.mp hi with h1 | h1
      · exact Or.inr ⟨chipA, h1⟩
      · rcases List.mem_cons.mp h1 with h2 | h2
        · exact Or.inl h2
        · exact absurd h2 (List.not_mem_nil _))
    (by decide)
  exact ⟨h.1, h.2 0⟩
